import Mathlib

/-!
Verification of the virtualized-list engine in
`src/vs/editor/browser/list/list.ts`.

The development shallowly embeds the engine: model entries are
represented by their cached heights (`Nat`), the offset index by its
value sequence, DOM nodes by numeric handles, and wall-clock reads and
animation-frame scheduling by explicit state.  Each definition mirrors
the corresponding source function; definitions whose source is not part
of this repository (the `PrefixSumComputer` offset index) are modelled
from the specification contract and marked as such.
-/

/-! ## Item model (`ViewModel`, `ViewModelChangedEvent`) -/

structure ViewModelChangedEvent where
  versionId : Nat
  start : Nat
  deleteCnt : Nat
  inserted : List Nat
deriving DecidableEq

structure ViewModel where
  items : List Nat
  versionId : Nat
deriving DecidableEq

/-- `ViewModel.splice` from the source: `before = items.slice(0, start)`,
`after = items.slice(start + deleteCnt)`, the new sequence is
`before ++ inserted ++ after`, the version is bumped once, and one change
event carrying the raw parameters is fired.  For non-negative arguments
JavaScript `slice` clamps indices to the array length exactly like
`List.take` / `List.drop` on `Nat` do, so the translation is direct.
Inserted items are represented by their sampled heights
(`items.map(i => i.cachedHeight)` in the fired event). -/
def ViewModel.splice (m : ViewModel) (start deleteCnt : Nat) (inserted : List Nat) :
    ViewModel × ViewModelChangedEvent :=
  let versionId := m.versionId + 1
  let before := m.items.take start
  let after := m.items.drop (start + deleteCnt)
  (⟨before ++ inserted ++ after, versionId⟩, ⟨versionId, start, deleteCnt, inserted⟩)

/-! ## Change-event decomposition (`ListViewItemsChangedEvent`) -/

structure ListViewItemsChangedEvent where
  versionId : Nat
  changedStart : Nat
  changed : List Nat
  insertStart : Nat
  inserted : List Nat
  deleteStart : Nat
  deleteCnt : Nat
deriving DecidableEq

/-- The `ListViewItemsChangedEvent` constructor: splits a raw
`(start, deleteCnt, inserted)` mutation into changed / inserted /
deleted sub-ranges.  `changed = inserted.slice(0, min(deleteCnt,
inserted.length))`, the remainder of `inserted` is inserted at
`start + changed.length`, and the remainder of the delete range is
deleted at the same boundary. -/
def ListViewItemsChangedEvent.ofModelEvent (e : ViewModelChangedEvent) :
    ListViewItemsChangedEvent :=
  let changed := e.inserted.take (min e.deleteCnt e.inserted.length)
  { versionId := e.versionId
    changedStart := e.start
    changed := changed
    insertStart := e.start + changed.length
    inserted := e.inserted.drop changed.length
    deleteStart := e.start + changed.length
    deleteCnt := e.deleteCnt - changed.length }

/-! ## Offset index

Modelled from the spec: the `PrefixSumComputer` offset index is imported
from `vs/editor/common/viewModel/prefixSumComputer` and is not part of
this repository.  Per spec section 6 it is an ordered sequence of
per-item sizes supporting `replaceRange`, `removeRange`, `insertRange`,
`totalValue`, `count`, `valueAt`, `accumulatedValueUpTo` and a point
query `indexOfOffset` that clamps an offset beyond the total content
height to the last item.  We represent it by its value sequence. -/

/-- Modelled from the spec: `replaceRange` / `changeValues` replaces the
`values.length` entries starting at `startIndex`. -/
def changeValues (l : List Nat) (startIndex : Nat) (values : List Nat) : List Nat :=
  l.take startIndex ++ values ++ l.drop (startIndex + values.length)

/-- Modelled from the spec: `removeRange` / `removeValues` removes `cnt`
entries starting at `startIndex`. -/
def removeValues (l : List Nat) (startIndex cnt : Nat) : List Nat :=
  l.take startIndex ++ l.drop (startIndex + cnt)

/-- Modelled from the spec: `insertRange` / `insertValues` inserts the
given run before position `startIndex`. -/
def insertValues (l : List Nat) (startIndex : Nat) (values : List Nat) : List Nat :=
  l.take startIndex ++ values ++ l.drop startIndex

/-- Modelled from the spec: `totalValue` is the running total of all
entries. -/
def getTotalValue (l : List Nat) : Nat := l.sum

/-- Modelled from the spec: `count` is the number of entries. -/
def getCount (l : List Nat) : Nat := l.length

/-- Modelled from the spec: `valueAt i`. -/
def getValue (l : List Nat) (i : Nat) : Nat := l.getD i 0

/-- Sum of the first `n` entries, i.e. `accumulatedValueUpTo (n-1)`: the
absolute top offset of item `n`. -/
def accTo (l : List Nat) (n : Nat) : Nat := (l.take n).sum

/-- Modelled from the spec: the point query `indexOfOffset y` returns the
pair (index containing offset `y`, remainder within that item); a query
at or beyond the total content height clamps to the last item and never
fails. -/
def getIndexOf : List Nat → Nat → Nat × Nat
  | [], y => (0, y)
  | [_], y => (0, y)
  | h :: b :: t, y =>
    if y < h then (0, y)
    else
      let r := getIndexOf (b :: t) (y - h)
      (r.1 + 1, r.2)

/-! ## Layout engine (`ListViewLayout`) -/

/-- `ListViewLayout.onItemsChanged`: applies the decomposed sub-ranges to
the offset index in the order changed, then deleted, then inserted. -/
def ListViewLayout.onItemsChanged (l : List Nat) (e : ListViewItemsChangedEvent) :
    List Nat :=
  insertValues
    (removeValues (changeValues l e.changedStart e.changed) e.deleteStart e.deleteCnt)
    e.insertStart e.inserted

/-- The forward walk of `ListViewLayout.getRenderData`: starting from the
accumulated offset of the start item, push the current offset while it
does not exceed `offset2 = scrollTop + height`, accumulating each item
height, stopping at the end of the item list. -/
def collectTops : List Nat → Nat → Nat → List Nat
  | [], _, _ => []
  | h :: rest, currentOffset, offset2 =>
    if offset2 < currentOffset then []
    else currentOffset :: collectTops rest (currentOffset + h) offset2

/-- `ListViewLayout.getRenderData`, restricted to the visible-window
computation: the start index is the index containing the scroll offset,
and `tops` is the list of absolute top offsets collected by the forward
walk. -/
def getRenderData (l : List Nat) (scrollTop height : Nat) : Nat × List Nat :=
  let startIndex := (getIndexOf l scrollTop).1
  (startIndex, collectTops (l.drop startIndex) (accTo l startIndex) (scrollTop + height))

/-- Item `i` occupies the half-open vertical span
`[accTo hs i, accTo hs (i+1))`; it intersects the half-open viewport
window `[top, top + viewH)` iff its top is above the window bottom and
its bottom is below the window top. -/
def itemIntersectsWindow (hs : List Nat) (i top viewH : Nat) : Prop :=
  accTo hs i < top + viewH ∧ top < accTo hs (i + 1)

/-! ## Sequences of splices driven through the dispatch cycle -/

structure SpliceOp where
  start : Nat
  deleteCnt : Nat
  inserted : List Nat

/-- A sequence of splice calls is valid when each call is in range for
the model length at the time it is made. -/
def validOps : Nat → List SpliceOp → Bool
  | _, [] => true
  | len, op :: rest =>
    decide (op.start + op.deleteCnt ≤ len) &&
      validOps (len - op.deleteCnt + op.inserted.length) rest

/-- One dispatch cycle for a single splice: the model splices and fires
its change event, the event is decomposed, and the layout applies the
decomposed ranges to the offset index. -/
def spliceStep (st : ViewModel × List Nat) (op : SpliceOp) : ViewModel × List Nat :=
  let r := st.1.splice op.start op.deleteCnt op.inserted
  (r.1, ListViewLayout.onItemsChanged st.2 (ListViewItemsChangedEvent.ofModelEvent r.2))

/-- Runs a sequence of splices, each followed by its dispatch cycle. -/
def runSplices (st : ViewModel × List Nat) (ops : List SpliceOp) : ViewModel × List Nat :=
  ops.foldl spliceStep st

/-! ## Event bus (`ListViewContext`) -/

inductive CtxEvent where
  | dim (w h : Nat)
  | scroll (top : Nat)
  | itemsChanged (data : Nat)
deriving DecidableEq

/-- The dispatcher state: the registered listener list and the pending
event queue. -/
structure Ctx where
  listeners : List Nat
  events : List CtxEvent
deriving DecidableEq

/-- The operations a listener may perform on the context while it is
being called: `addEventHandler`, `removeEventHandler` (removes the first
occurrence), and `emitSoon` (appends to the pending queue). -/
inductive CtxAct where
  | addHandler (l : Nat)
  | removeHandler (l : Nat)
  | emitSoonAct (e : CtxEvent)
deriving DecidableEq

def applyAct (c : Ctx) : CtxAct → Ctx
  | .addHandler l => { c with listeners := c.listeners ++ [l] }
  | .removeHandler l => { c with listeners := c.listeners.erase l }
  | .emitSoonAct e => { c with events := c.events ++ [e] }

def applyActs (c : Ctx) (acts : List CtxAct) : Ctx := acts.foldl applyAct c

/-- The behaviour of the listeners: what context operations each listener
performs in its `onBeforeEventsDispatch`, per-event, and
`onAfterEventsDispatch` hooks. -/
structure HandlerSpec where
  onBefore : Nat → Ctx → List CtxAct
  onEvent : Nat → CtxEvent → Ctx → List CtxAct
  onAfter : Nat → Ctx → List CtxAct

/-- Observable calls made by a flush, in order. -/
inductive TraceEntry where
  | beforeCall (l : Nat)
  | dispatchCall (l : Nat) (e : CtxEvent)
  | afterCall (l : Nat)
deriving DecidableEq

/-- `flush` dispatches dimension-changed and items-changed events to the
listeners; a scroll event is dequeued but intentionally delivered to no
listener. -/
def isDispatched : CtxEvent → Bool
  | .dim _ _ => true
  | .scroll _ => false
  | .itemsChanged _ => true

def runBefore (hs : HandlerSpec) : List Nat → Ctx → Ctx × List TraceEntry
  | [], c => (c, [])
  | l :: rest, c =>
    let c1 := applyActs c (hs.onBefore l c)
    let r := runBefore hs rest c1
    (r.1, .beforeCall l :: r.2)

def runAfter (hs : HandlerSpec) : List Nat → Ctx → Ctx × List TraceEntry
  | [], c => (c, [])
  | l :: rest, c =>
    let c1 := applyActs c (hs.onAfter l c)
    let r := runAfter hs rest c1
    (r.1, .afterCall l :: r.2)

def dispatchTo (hs : HandlerSpec) (e : CtxEvent) : List Nat → Ctx → Ctx × List TraceEntry
  | [], c => (c, [])
  | l :: rest, c =>
    let c1 := applyActs c (hs.onEvent l e c)
    let r := dispatchTo hs e rest c1
    (r.1, .dispatchCall l e :: r.2)

/-- The `while (this._events.length > 0)` drain loop of `flush`: shift
the front event, dispatch it to the snapshotted listener list, repeat.
Listeners may emit further events during dispatch, which land at the back
of the live queue; `fuel` bounds the number of loop iterations so the
embedding stays total.  Returns the drained events in drain order
together with the dispatch trace. -/
def drainEvents (hs : HandlerSpec) (snap : List Nat) :
    Nat → Ctx → Option (Ctx × List CtxEvent × List TraceEntry)
  | 0, c => if c.events = [] then some (c, [], []) else none
  | fuel + 1, c =>
    match c.events with
    | [] => some (c, [], [])
    | e :: rest =>
      let c1 : Ctx := { c with events := rest }
      let step := if isDispatched e then dispatchTo hs e snap c1 else (c1, [])
      match drainEvents hs snap fuel step.1 with
      | none => none
      | some (c2, es, tr) => some (c2, e :: es, step.2 ++ tr)

/-- `ListViewContext.flush`: snapshot the listener list
(`this._listeners.slice(0)`), call `onBeforeEventsDispatch` on every
snapshotted listener, drain the queue dispatching to the snapshotted
listeners, then call `onAfterEventsDispatch` on every snapshotted
listener. -/
def ListViewContext.flush (hs : HandlerSpec) (fuel : Nat) (c : Ctx) :
    Option (Ctx × List CtxEvent × List TraceEntry) :=
  let snap := c.listeners
  let b := runBefore hs snap c
  match drainEvents hs snap fuel b.1 with
  | none => none
  | some (c2, es, tr) =>
    let a := runAfter hs snap c2
    some (a.1, es, b.2 ++ tr ++ a.2)

/-- The dispatch block a drained event list contributes to the trace:
each dispatched event is delivered to every listener of the snapshot, in
snapshot order; scroll events are delivered to nobody. -/
def dispatchedTrace (snap : List Nat) : List CtxEvent → List TraceEntry
  | [] => []
  | e :: rest =>
    (if isDispatched e then snap.map (fun l => TraceEntry.dispatchCall l e) else []) ++
      dispatchedTrace snap rest

/-- Concrete listener behaviour used to exercise `flush`: listener 1
registers a new listener during its before-hook, listener 2 removes
listener 1 while handling each dispatched event. -/
def demoHandlers : HandlerSpec where
  onBefore := fun l _ => if l = 1 then [CtxAct.addHandler 9] else []
  onEvent := fun l _ _ => if l = 2 then [CtxAct.removeHandler 1] else []
  onAfter := fun _ _ => []

def demoCtx : Ctx :=
  ⟨[1, 2], [CtxEvent.dim 4 4, CtxEvent.scroll 3, CtxEvent.itemsChanged 7]⟩

/-! ## Render scheduling (`ListView._scheduleRender`, `emitSoon`,
`dispose`) -/

/-- The scheduling-related state of a `ListView`: the pending event
queue of its context, the `_renderAnimationFrame` slot (the handle of the
currently requested animation-frame callback, `null` when none is
outstanding), the ledger of callbacks currently registered with the
external animation-frame scheduler, a counter of scheduling requests ever
made, and the one-slot retention cache `_scrollDomNode`. -/
structure ListViewState where
  events : List CtxEvent
  renderAnimationFrame : Option Nat
  outstanding : List Nat
  requests : Nat
  scrollDomNode : Option Nat
deriving DecidableEq

/-- `_scheduleRender`: request a new animation-frame callback only when
`_renderAnimationFrame` is `null`; otherwise do nothing. -/
def ListView.scheduleRender (st : ListViewState) : ListViewState :=
  match st.renderAnimationFrame with
  | some _ => st
  | none =>
    { st with
      renderAnimationFrame := some st.requests
      outstanding := st.outstanding ++ [st.requests]
      requests := st.requests + 1 }

/-- `ListViewContext.emitSoon` as seen from the view: push the event and
signal `_onEventAdded`, which calls `_scheduleRender`. -/
def ListView.emitSoonOp (st : ListViewState) (e : CtxEvent) : ListViewState :=
  ListView.scheduleRender { st with events := st.events ++ [e] }

/-- The scheduled callback firing: it first clears
`_renderAnimationFrame`, then flushes the accumulated events and
renders.  The scheduler forgets the callback once it has run. -/
def ListView.fireCallback (st : ListViewState) : ListViewState :=
  match st.renderAnimationFrame with
  | none => st
  | some t =>
    { st with
      renderAnimationFrame := none
      outstanding := st.outstanding.erase t
      events := [] }

/-- `ListView.dispose`: if an animation-frame callback is pending its
handle is disposed, cancelling it with the scheduler, and the slot is
cleared.  Nothing else of this state is touched; in particular the
retained `_scrollDomNode` is left as it is. -/
def ListView.dispose (st : ListViewState) : ListViewState :=
  match st.renderAnimationFrame with
  | none => st
  | some t =>
    { st with
      renderAnimationFrame := none
      outstanding := st.outstanding.erase t }

inductive LVOp where
  | emit (e : CtxEvent)
  | fire
  | disposeView
deriving DecidableEq

def lvStep (st : ListViewState) : LVOp → ListViewState
  | .emit e => ListView.emitSoonOp st e
  | .fire => ListView.fireCallback st
  | .disposeView => ListView.dispose st

def lvInit : ListViewState := ⟨[], none, [], 0, none⟩

def lvRun (ops : List LVOp) : ListViewState := ops.foldl lvStep lvInit

/-- The callbacks that ought to be outstanding given the
`_renderAnimationFrame` slot. -/
def pendingOf (st : ListViewState) : List Nat :=
  match st.renderAnimationFrame with
  | some t => [t]
  | none => []

/-! ## Window reconciler (`ListView._render` and helpers)

DOM nodes are numeric handles; `children` is the child list of
`_listItemsDomNode`; `nextId` is the supply of fresh node handles, so
every handle ever attached is below `nextId`.  The external
`last-scroll-time` attribute is a function from handles to times, with 0
standing for an absent attribute. -/

/-- A `ViewItem`: its dirty flag and its DOM node handle, if any. -/
structure ViewItem where
  isDirty : Bool
  domNode : Option Nat
deriving DecidableEq

/-- `ViewModel.createViewItem` / `new ViewItem`: dirty, no DOM node. -/
def createViewItem : ViewItem := ⟨true, none⟩

structure RenderState where
  renderedItemsStart : Nat
  renderedItems : List ViewItem
  scrollDomNode : Option Nat
  scrollDomNodeIsAbove : Bool
  children : List Nat
  nextId : Nat
deriving DecidableEq

/-- Observable per-item surface operations of a render pass:
`renderItem n` is a content (re)generation for line `n` (the item render
call inside `getLineOuterHTML`), `layout n` is a pure reposition
(`layoutLine`: top and height rewritten). -/
inductive RenderCall where
  | renderItem (lineNumber : Nat)
  | layout (lineNumber : Nat)
deriving DecidableEq

/-- The `canRemoveScrollDomNode` computation at the top of `_render`: a
retained scroll node younger than one second blocks removal. -/
def canRemoveScrollDomNode (nodeTime : Nat → Nat) (now : Nat) : Option Nat → Bool
  | none => true
  | some n => if now - nodeTime n < 1000 then false else true

/-- `_removeIfNotScrollDomNode`: a node without a `last-scroll-time`
attribute is removed from the container; otherwise it competes with the
currently retained node and the younger of the two is kept in the DOM as
the retained scroll node while the other is removed. -/
def removeIfNotScrollDomNode (nodeTime : Nat → Nat) (st : RenderState) (n : Nat)
    (isAbove : Bool) : RenderState :=
  let time := nodeTime n
  if time = 0 then { st with children := st.children.erase n }
  else
    match st.scrollDomNode with
    | some m =>
      if time < nodeTime m then { st with children := st.children.erase n }
      else
        { st with
          children := st.children.erase m
          scrollDomNode := some n
          scrollDomNodeIsAbove := isAbove }
    | none => { st with scrollDomNode := some n, scrollDomNodeIsAbove := isAbove }

/-- `_removeLinesBefore`: run the first `removeCount` rendered items
through the retention path, then splice them off the front. -/
def removeLinesBefore (nodeTime : Nat → Nat) (st : RenderState) (removeCount : Nat) :
    RenderState :=
  let st1 := (st.renderedItems.take removeCount).foldl
    (fun s it =>
      match it.domNode with
      | some n => removeIfNotScrollDomNode nodeTime s n true
      | none => s) st
  { st1 with renderedItems := st.renderedItems.drop removeCount }

/-- `_removeLinesAfter`: run the last `removeCount` rendered items
through the retention path, then splice them off the back. -/
def removeLinesAfter (nodeTime : Nat → Nat) (st : RenderState) (removeCount : Nat) :
    RenderState :=
  let keep := st.renderedItems.length - removeCount
  let st1 := (st.renderedItems.drop keep).foldl
    (fun s it =>
      match it.domNode with
      | some n => removeIfNotScrollDomNode nodeTime s n false
      | none => s) st
  { st1 with renderedItems := st.renderedItems.take keep }

/-- `_insertLinesBefore`: prepend freshly created view items. -/
def insertLinesBefore (st : RenderState) (cnt : Nat) : RenderState :=
  { st with renderedItems := List.replicate cnt createViewItem ++ st.renderedItems }

/-- `_insertLinesAfter`: append freshly created view items. -/
def insertLinesAfter (st : RenderState) (cnt : Nat) : RenderState :=
  { st with renderedItems := st.renderedItems ++ List.replicate cnt createViewItem }

/-- `_renderUntouchedLines`: for every index of the inclusive range that
has a DOM node, call `layoutLine` — a reposition, never a content
regeneration.  The item state and the DOM are untouched. -/
def renderUntouchedLines (st : RenderState) (startIndex : Nat) (endIndex : Int) :
    List RenderCall :=
  if endIndex < (startIndex : Int) then []
  else
    (List.range ((endIndex - (startIndex : Int)).toNat + 1)).filterMap fun j =>
      match st.renderedItems.get? (startIndex + j) with
      | some it =>
        match it.domNode with
        | some _ => some (RenderCall.layout (st.renderedItemsStart + startIndex + j))
        | none => none
      | none => none

/-- The content-generation calls of `_finishRendering`: one loop over the
rendered items in order, calling `getLineOuterHTML` (which invokes the
item render) exactly for the items whose dirty flag is set. -/
def renderTraceOf (start : Nat) : List ViewItem → List RenderCall
  | [] => []
  | it :: rest =>
    if it.isDirty then RenderCall.renderItem start :: renderTraceOf (start + 1) rest
    else renderTraceOf (start + 1) rest

/-- Result of walking the rendered items in `_finishRendering`: the
updated items, the handles of the nodes created for new lines (in item
order), the (old, new) handle pairs for invalidated lines, and the next
fresh handle.  Fresh handles are assigned in item order; this matches the
source, which appends the new-line markup in item order and then pairs
DOM nodes with items by walking backwards from the last child. -/
structure FinishResult where
  items : List ViewItem
  newIds : List Nat
  replacements : List (Nat × Nat)
  nextId : Nat

def finishItems : List ViewItem → Nat → FinishResult
  | [], nid => ⟨[], [], [], nid⟩
  | it :: rest, nid =>
    if it.isDirty then
      match it.domNode with
      | none =>
        let r := finishItems rest (nid + 1)
        ⟨⟨false, some nid⟩ :: r.items, nid :: r.newIds, r.replacements, r.nextId⟩
      | some o =>
        let r := finishItems rest (nid + 1)
        ⟨⟨false, some nid⟩ :: r.items, r.newIds, (o, nid) :: r.replacements, r.nextId⟩
    else
      let r := finishItems rest nid
      ⟨it :: r.items, r.newIds, r.replacements, r.nextId⟩

/-- `replaceChild` for each invalidated line: the old handle is swapped
for the new one at its position in the child list. -/
def applyReplacements (children : List Nat) (reps : List (Nat × Nat)) : List Nat :=
  reps.foldl (fun cs p => cs.map fun c => if c = p.1 then p.2 else c) children

/-- `_finishRendering`: regenerate content for dirty items only (new
lines are appended in one batch — replacing the whole child list when the
container was emptied — and invalidated lines are replaced in place), and
report the content-generation trace. -/
def finishRendering (domNodeIsEmpty : Bool) (st : RenderState) :
    RenderState × List RenderCall :=
  let f := finishItems st.renderedItems st.nextId
  let children1 :=
    if f.newIds = [] then st.children
    else if domNodeIsEmpty ∨ st.children = [] then f.newIds
    else st.children ++ f.newIds
  let children2 := applyReplacements children1 f.replacements
  ({ st with renderedItems := f.items, children := children2, nextId := f.nextId },
    renderTraceOf st.renderedItemsStart st.renderedItems)

/-- The disjoint fast path of `_render`: reset the window start, drop the
whole rendered-item list and allocate fresh view items for the desired
range, finish rendering into an emptied container, and clear the
retention slot. -/
def renderDisjoint (startItem : Nat) (tops : List Nat) (st : RenderState) :
    RenderState × List RenderCall :=
  let r := finishRendering true
    { st with
      renderedItemsStart := startItem
      renderedItems := List.replicate tops.length createViewItem }
  ({ r.1 with scrollDomNode := none }, r.2)

/-- The incremental path of `_render`: reposition the untouched overlap,
grow or shrink the window at the front, reset the window start, grow or
shrink at the back (evictions go through the retention path, successful
growth cleans the retained garbage on that side), then finish
rendering. -/
def renderOverlap (nodeTime : Nat → Nat) (startItem : Nat) (tops : List Nat)
    (st : RenderState) : RenderState × List RenderCall :=
  let endItem : Int := (startItem : Int) + tops.length - 1
  let S : Int := (st.renderedItemsStart : Int)
  let tr0 := renderUntouchedLines st ((max ((startItem : Int) - S) 0).toNat)
    (min (endItem - S) ((st.renderedItems.length : Int) - 1))
  let st1 :=
    if (startItem : Int) < S then
      if (startItem : Int) ≤ min endItem (S - 1) then
        let stX := insertLinesBefore st ((min endItem (S - 1) - (startItem : Int) + 1).toNat)
        match stX.scrollDomNode with
        | some m =>
          if stX.scrollDomNodeIsAbove then
            { stX with children := stX.children.erase m, scrollDomNode := none }
          else stX
        | none => stX
      else st
    else
      if S < (startItem : Int) then
        let removeCnt := min st.renderedItems.length (startItem - st.renderedItemsStart)
        if 0 < removeCnt then removeLinesBefore nodeTime st removeCnt else st
      else st
  let st2 := { st1 with renderedItemsStart := startItem }
  let L2 : Int := (st2.renderedItems.length : Int)
  let st3 :=
    if (startItem : Int) + L2 - 1 < endItem then
      if (startItem : Int) + L2 ≤ endItem then
        let stY := insertLinesAfter st2 ((endItem - ((startItem : Int) + L2) + 1).toNat)
        match stY.scrollDomNode with
        | some m =>
          if stY.scrollDomNodeIsAbove then stY
          else { stY with children := stY.children.erase m, scrollDomNode := none }
        | none => stY
      else st2
    else
      if endItem < (startItem : Int) + L2 - 1 then
        let fromIdx := max 0 (endItem - (startItem : Int) + 1)
        let removeCnt := (L2 - 1 - fromIdx + 1).toNat
        if 0 < removeCnt then removeLinesAfter nodeTime st2 removeCnt else st2
      else st2
  let r := finishRendering false st3
  (r.1, tr0 ++ r.2)

/-- `ListView._render`: take the teardown fast path only when the desired
range `[startItem, endItem]` is disjoint from the rendered range AND no
retained scroll node younger than one second blocks it; otherwise
reconcile incrementally. -/
def ListView.render (nodeTime : Nat → Nat) (now startItem : Nat) (tops : List Nat)
    (st : RenderState) : RenderState × List RenderCall :=
  if canRemoveScrollDomNode nodeTime now st.scrollDomNode ∧
      ((st.renderedItemsStart : Int) + st.renderedItems.length - 1 < (startItem : Int) ∨
        (startItem : Int) + tops.length - 1 < (st.renderedItemsStart : Int)) then
    renderDisjoint startItem tops st
  else
    renderOverlap nodeTime startItem tops st

/-! ## Concrete fixtures used by witnesses and counterexamples -/

/-- A rendered window covering lines 0 to 20, all clean, with node
handles 0 to 20 attached. -/
def demoOldWindow : RenderState :=
  ⟨0, (List.range 21).map (fun i => ⟨false, some i⟩), none, false, List.range 21, 21⟩

/-- A state with a one-item window whose node (handle 3) carries
`last-scroll-time` 600 and with a retained scroll node (handle 7, time
500) that is younger than one second at `now = 1000`. -/
def demoYoungScrollState : RenderState :=
  ⟨0, [⟨false, some 3⟩], some 7, false, [3, 7], 8⟩

def demoNodeTime : Nat → Nat :=
  fun n => if n = 7 then 500 else if n = 3 then 600 else 0

/-- A two-item window at line 2: item 0 is clean with node 1, item 1 is
dirty with node 2. -/
def demoFinishState : RenderState :=
  ⟨2, [⟨false, some 1⟩, ⟨true, some 2⟩], none, false, [1, 2], 3⟩

/-! # Theorems -/

/-! ## Shared list helpers -/

theorem take_min_length (l : List Nat) (n : Nat) : l.take (min n l.length) = l.take n := by
  rw [List.take_eq_take]
  omega

theorem drop_min_length (l : List Nat) (n : Nat) : l.drop (min n l.length) = l.drop n := by
  rcases Nat.le_total n l.length with h | h
  · rw [min_eq_left h]
  · rw [min_eq_right h, List.drop_length, List.drop_eq_nil_of_le h]

/-! ## Claim C1: the change-event decomposition -/

/-- Claim C1: for every change event `(start, deleteCnt, inserted)` the
decomposition produced by the `ListViewItemsChangedEvent` constructor
satisfies `changedStart = start`, `|changed| = min(deleteCnt,
|inserted|)`, `insertStart = deleteStart = start + |changed|`,
`|changed| + |inserted(remainder)| = |inserted(original)|`, and
`|changed| + deleteCnt(remainder) = deleteCnt(original)`; in particular
`changed ++ inserted(remainder)` reassembles the original inserted run,
so the decomposition reconstructs the original triple. -/
theorem decompose_reassembles (e : ViewModelChangedEvent) :
    (ListViewItemsChangedEvent.ofModelEvent e).changedStart = e.start ∧
    (ListViewItemsChangedEvent.ofModelEvent e).changed.length =
      min e.deleteCnt e.inserted.length ∧
    (ListViewItemsChangedEvent.ofModelEvent e).insertStart =
      e.start + (ListViewItemsChangedEvent.ofModelEvent e).changed.length ∧
    (ListViewItemsChangedEvent.ofModelEvent e).deleteStart =
      e.start + (ListViewItemsChangedEvent.ofModelEvent e).changed.length ∧
    (ListViewItemsChangedEvent.ofModelEvent e).changed.length +
      (ListViewItemsChangedEvent.ofModelEvent e).inserted.length = e.inserted.length ∧
    (ListViewItemsChangedEvent.ofModelEvent e).changed.length +
      (ListViewItemsChangedEvent.ofModelEvent e).deleteCnt = e.deleteCnt ∧
    (ListViewItemsChangedEvent.ofModelEvent e).changed ++
      (ListViewItemsChangedEvent.ofModelEvent e).inserted = e.inserted := by
  refine ⟨rfl, ?_, rfl, rfl, ?_, ?_, ?_⟩
  · simp only [ListViewItemsChangedEvent.ofModelEvent, List.length_take]
    omega
  · simp only [ListViewItemsChangedEvent.ofModelEvent, List.length_take, List.length_drop]
    omega
  · simp only [ListViewItemsChangedEvent.ofModelEvent, List.length_take]
    omega
  · simp only [ListViewItemsChangedEvent.ofModelEvent, List.length_take]
    have hk : min (min e.deleteCnt e.inserted.length) e.inserted.length =
        min e.deleteCnt e.inserted.length := by omega
    rw [hk, List.take_append_drop]

/-! ## Claim C10: splice clamps out-of-range arguments -/

/-- Claim C10: for every non-negative `start` and `deleteCnt`, even out
of range, `ViewModel.splice` is total (it never throws): the resulting
sequence is `items[0, min(start, L)) ++ inserted ++
items[min(start + deleteCnt, L), L)` by slice clamping, the version is
incremented exactly once, and exactly one change event is emitted
carrying the raw un-clamped `start` and `deleteCnt`. -/
theorem splice_clamps (m : ViewModel) (start deleteCnt : Nat) (inserted : List Nat) :
    (m.splice start deleteCnt inserted).1.items =
      m.items.take (min start m.items.length) ++ inserted ++
        m.items.drop (min (start + deleteCnt) m.items.length) ∧
    (m.splice start deleteCnt inserted).1.versionId = m.versionId + 1 ∧
    (m.splice start deleteCnt inserted).2 =
      ⟨m.versionId + 1, start, deleteCnt, inserted⟩ := by
  refine ⟨?_, rfl, rfl⟩
  rw [take_min_length, drop_min_length]
  rfl

/-! ## Claim C2: out-of-range splice does not raise -/

/-- Claim C2 counterexample: calling `splice(5, 0, [9])` on a model of
length 2 (so `start > length`) does not leave the model unchanged — the
claimed `RangeError` with no mutation and no event does not happen; the
model is mutated and its version is bumped. -/
theorem splice_out_of_range_mutates :
    ([3, 4] : List Nat).length < 5 ∧
    (ViewModel.splice ⟨[3, 4], 1⟩ 5 0 [9]).1 ≠ ⟨[3, 4], 1⟩ ∧
    (ViewModel.splice ⟨[3, 4], 1⟩ 5 0 [9]).1.items = [3, 4, 9] ∧
    (ViewModel.splice ⟨[3, 4], 1⟩ 5 0 [9]).1.versionId = 2 := by
  decide

/-- Claim C2 amended: for every call `splice(start, deleteCount,
newItems)` with non-negative arguments out of range (`start > L` or
`start + deleteCount > L`), the call does not raise: the item sequence
becomes `items[0, min(start, L)) ++ newEntries ++
items[min(start + deleteCount, L), L)` by slice clamping, the version is
incremented exactly once, and exactly one change event is emitted with
the raw arguments. -/
theorem splice_out_of_range_clamps (m : ViewModel) (start deleteCnt : Nat)
    (inserted : List Nat)
    (_h : m.items.length < start ∨ m.items.length < start + deleteCnt) :
    (m.splice start deleteCnt inserted).1.items =
      m.items.take (min start m.items.length) ++ inserted ++
        m.items.drop (min (start + deleteCnt) m.items.length) ∧
    (m.splice start deleteCnt inserted).1.versionId = m.versionId + 1 ∧
    (m.splice start deleteCnt inserted).2 =
      ⟨m.versionId + 1, start, deleteCnt, inserted⟩ := by
  refine ⟨?_, rfl, rfl⟩
  rw [take_min_length, drop_min_length]
  rfl

/-- Witness for the amended C2 at a concrete out-of-range input. -/
theorem splice_out_of_range_clamps_witness :
    (ViewModel.splice ⟨[3, 4], 1⟩ 5 0 [9]).1.items =
      ([3, 4] : List Nat).take (min 5 ([3, 4] : List Nat).length) ++ [9] ++
        ([3, 4] : List Nat).drop (min (5 + 0) ([3, 4] : List Nat).length) ∧
    (ViewModel.splice ⟨[3, 4], 1⟩ 5 0 [9]).1.versionId = 1 + 1 ∧
    (ViewModel.splice ⟨[3, 4], 1⟩ 5 0 [9]).2 = ⟨1 + 1, 5, 0, [9]⟩ :=
  splice_out_of_range_clamps ⟨[3, 4], 1⟩ 5 0 [9] (Or.inl (by decide))

/-! ## Claim C3: the offset index mirrors the model -/

/-- Applying the decomposed ranges of a valid splice to the offset index
in the order changed, then deleted, then inserted produces exactly the
spliced height sequence. -/
theorem onItemsChanged_decompose (hs ins : List Nat) (v start dc : Nat)
    (h : start + dc ≤ hs.length) :
    ListViewLayout.onItemsChanged hs
      (ListViewItemsChangedEvent.ofModelEvent ⟨v, start, dc, ins⟩) =
      hs.take start ++ ins ++ hs.drop (start + dc) := by
  unfold ListViewLayout.onItemsChanged
  simp only [ListViewItemsChangedEvent.ofModelEvent]
  have hlen : (ins.take (min dc ins.length)).length = min dc ins.length := by
    simp only [List.length_take]
    omega
  rw [hlen]
  have hkle : min dc ins.length ≤ ins.length := by omega
  have hkdc : min dc ins.length ≤ dc := by omega
  generalize hgen : min dc ins.length = k at *
  have hstart : start ≤ hs.length := by omega
  have hlk : (ins.take k).length = k := by
    simp only [List.length_take]
    omega
  have hlenA : (hs.take start).length = start := by
    simp only [List.length_take]
    omega
  have hAB : (hs.take start ++ ins.take k).length = start + k := by
    simp only [List.length_append, hlenA, hlk]
  have e1 : changeValues hs start (ins.take k) =
      hs.take start ++ ins.take k ++ hs.drop (start + k) := by
    simp only [changeValues, hlk]
  have e2 : removeValues (hs.take start ++ ins.take k ++ hs.drop (start + k))
      (start + k) (dc - k) =
      hs.take start ++ ins.take k ++ hs.drop (start + dc) := by
    simp only [removeValues]
    rw [List.take_left' hAB, ← List.drop_drop, List.drop_left' hAB, List.drop_drop]
    have h2 : start + k + (dc - k) = start + dc := by omega
    rw [h2]
  have e3 : insertValues (hs.take start ++ ins.take k ++ hs.drop (start + dc))
      (start + k) (ins.drop k) =
      hs.take start ++ ins ++ hs.drop (start + dc) := by
    simp only [insertValues]
    rw [List.take_left' hAB, List.drop_left' hAB]
    simp only [List.append_assoc]
    rw [← List.append_assoc (ins.take k), List.take_append_drop]
  rw [e1, e2, e3]

/-- For any model and any valid sequence of splices driven through the
dispatch cycle, the offset index stays equal, entry by entry, to the
sequence of cached heights of the model. -/
theorem runSplices_mirror (ops : List SpliceOp) : ∀ m : ViewModel,
    validOps m.items.length ops = true →
    (runSplices (m, m.items) ops).2 = (runSplices (m, m.items) ops).1.items := by
  induction ops with
  | nil => intro m _; rfl
  | cons op rest ih =>
    intro m hv
    simp only [validOps, Bool.and_eq_true, decide_eq_true_eq] at hv
    obtain ⟨hrange, hrest⟩ := hv
    have hstep : spliceStep (m, m.items) op =
        ((m.splice op.start op.deleteCnt op.inserted).1,
          (m.splice op.start op.deleteCnt op.inserted).1.items) := by
      simp only [spliceStep]
      congr 1
      have hev : (m.splice op.start op.deleteCnt op.inserted).2 =
          ⟨m.versionId + 1, op.start, op.deleteCnt, op.inserted⟩ := rfl
      rw [hev, onItemsChanged_decompose m.items op.inserted _ op.start op.deleteCnt hrange]
      rfl
    have hlen : (m.splice op.start op.deleteCnt op.inserted).1.items.length =
        m.items.length - op.deleteCnt + op.inserted.length := by
      simp only [ViewModel.splice, List.length_append, List.length_take, List.length_drop]
      omega
    simp only [runSplices, List.foldl_cons] at *
    rw [hstep]
    exact ih _ (by rw [hlen]; exact hrest)

/-- Claim C3: for every sequence of valid splice calls on the model,
after each dispatch cycle — in which `onItemsChanged` applies the
decomposed ranges to the offset index in the order changed, then delete,
then insert — the offset index equals the sequence of cached heights of
the model: in particular `totalValue()` equals the sum of the cached
heights and the index count equals the model length. -/
theorem layout_mirrors_model (items0 : List Nat) (ops : List SpliceOp)
    (h : validOps items0.length ops = true) :
    (runSplices (⟨items0, 1⟩, items0) ops).2 =
      (runSplices (⟨items0, 1⟩, items0) ops).1.items ∧
    getTotalValue (runSplices (⟨items0, 1⟩, items0) ops).2 =
      ((runSplices (⟨items0, 1⟩, items0) ops).1.items).sum ∧
    getCount (runSplices (⟨items0, 1⟩, items0) ops).2 =
      (runSplices (⟨items0, 1⟩, items0) ops).1.items.length := by
  have hm := runSplices_mirror ops ⟨items0, 1⟩ h
  exact ⟨hm, by rw [getTotalValue, hm], by rw [getCount, hm]⟩

/-- Witness for C3 on a concrete model and splice sequence. -/
theorem layout_mirrors_model_witness :
    (runSplices (⟨[20, 30], 1⟩, [20, 30]) [⟨1, 1, [5, 6]⟩, ⟨0, 2, [7]⟩]).2 =
      (runSplices (⟨[20, 30], 1⟩, [20, 30]) [⟨1, 1, [5, 6]⟩, ⟨0, 2, [7]⟩]).1.items ∧
    getTotalValue (runSplices (⟨[20, 30], 1⟩, [20, 30]) [⟨1, 1, [5, 6]⟩, ⟨0, 2, [7]⟩]).2 =
      ((runSplices (⟨[20, 30], 1⟩, [20, 30]) [⟨1, 1, [5, 6]⟩, ⟨0, 2, [7]⟩]).1.items).sum ∧
    getCount (runSplices (⟨[20, 30], 1⟩, [20, 30]) [⟨1, 1, [5, 6]⟩, ⟨0, 2, [7]⟩]).2 =
      (runSplices (⟨[20, 30], 1⟩, [20, 30]) [⟨1, 1, [5, 6]⟩, ⟨0, 2, [7]⟩]).1.items.length :=
  layout_mirrors_model [20, 30] [⟨1, 1, [5, 6]⟩, ⟨0, 2, [7]⟩] (by decide)

/-! ## Claim C4: the visible window returned by getRenderData -/

theorem accTo_cons (hd : Nat) (t : List Nat) (n : Nat) :
    accTo (hd :: t) (n + 1) = hd + accTo t n := by
  simp [accTo, List.take_succ_cons]

theorem accTo_split (l : List Nat) (s i : Nat) (h : s ≤ i) :
    accTo l i = accTo l s + accTo (l.drop s) (i - s) := by
  obtain ⟨d, rfl⟩ : ∃ d, i = s + d := ⟨i - s, by omega⟩
  simp only [Nat.add_sub_cancel_left, accTo]
  rw [List.take_add, List.sum_append]

theorem accTo_mono (l : List Nat) (m n : Nat) (h : m ≤ n) : accTo l m ≤ accTo l n := by
  rw [accTo_split l m n h]
  exact Nat.le_add_right _ _

theorem getIndexOf_lt_length (l : List Nat) (y : Nat) (hne : l ≠ []) :
    (getIndexOf l y).1 < l.length := by
  induction l generalizing y with
  | nil => exact absurd rfl hne
  | cons hd tl ih =>
    cases tl with
    | nil => simp [getIndexOf]
    | cons b t =>
      simp only [getIndexOf]
      by_cases hlt : y < hd
      · simp [hlt]
      · simp only [if_neg hlt, List.length_cons]
        have := ih (y - hd) (by simp)
        simpa using Nat.succ_lt_succ this

theorem getIndexOf_spec (l : List Nat) (y : Nat) (hne : l ≠ []) (hy : y < l.sum) :
    accTo l (getIndexOf l y).1 ≤ y ∧ y < accTo l ((getIndexOf l y).1 + 1) := by
  induction l generalizing y with
  | nil => exact absurd rfl hne
  | cons hd tl ih =>
    cases tl with
    | nil =>
      refine ⟨Nat.zero_le y, ?_⟩
      have : accTo [hd] 1 = hd := by simp [accTo]
      simp only [getIndexOf, this]
      simpa using hy
    | cons b t =>
      simp only [getIndexOf]
      by_cases hlt : y < hd
      · refine ⟨?_, ?_⟩ <;> simp [hlt, accTo, List.take_succ_cons]
      · simp only [if_neg hlt]
        have hy' : y - hd < (b :: t).sum := by
          simp only [List.sum_cons] at hy ⊢
          omega
        obtain ⟨ih1, ih2⟩ := ih (y - hd) (by simp) hy'
        refine ⟨?_, ?_⟩
        · rw [accTo_cons]
          omega
        · rw [accTo_cons]
          omega

theorem getIndexOf_clamp (l : List Nat) (y : Nat) (hne : l ≠ []) (hy : l.sum ≤ y) :
    (getIndexOf l y).1 = l.length - 1 := by
  induction l generalizing y with
  | nil => exact absurd rfl hne
  | cons hd tl ih =>
    cases tl with
    | nil => simp [getIndexOf]
    | cons b t =>
      have hge : ¬ y < hd := by
        simp only [List.sum_cons] at hy
        omega
      simp only [getIndexOf, if_neg hge]
      have := ih (y - hd) (by simp) (by simp only [List.sum_cons] at hy ⊢; omega)
      simp only [List.length_cons] at this ⊢
      omega

theorem collectTops_length_iff (l : List Nat) : ∀ off lim j,
    j < (collectTops l off lim).length ↔ j < l.length ∧ off + accTo l j ≤ lim := by
  induction l with
  | nil =>
    intro off lim j
    simp [collectTops]
  | cons hd t ih =>
    intro off lim j
    simp only [collectTops]
    by_cases hol : lim < off
    · rw [if_pos hol]
      simp only [List.length_nil]
      constructor
      · intro h0
        exact absurd h0 (Nat.not_lt_zero j)
      · rintro ⟨-, hle⟩
        have : off ≤ off + accTo (hd :: t) j := Nat.le_add_right _ _
        omega
    · rw [if_neg hol]
      cases j with
      | zero =>
        simp only [List.length_cons, Nat.succ_sub_one]
        have h0 : accTo (hd :: t) 0 = 0 := rfl
        constructor
        · intro _
          exact ⟨Nat.succ_pos _, by omega⟩
        · intro _
          exact Nat.succ_pos _
      | succ jj =>
        simp only [List.length_cons, Nat.succ_lt_succ_iff]
        rw [ih (off + hd) lim jj, accTo_cons]
        constructor
        · rintro ⟨a, b⟩
          exact ⟨a, by omega⟩
        · rintro ⟨a, b⟩
          exact ⟨a, by omega⟩

theorem collectTops_getD (l : List Nat) : ∀ off lim j,
    j < (collectTops l off lim).length →
    (collectTops l off lim).getD j 0 = off + accTo l j := by
  induction l with
  | nil =>
    intro off lim j hj
    simp [collectTops] at hj
  | cons hd t ih =>
    intro off lim j hj
    simp only [collectTops] at hj ⊢
    by_cases hol : lim < off
    · rw [if_pos hol] at hj
      simp at hj
    · rw [if_neg hol] at hj ⊢
      cases j with
      | zero =>
        have h0 : accTo (hd :: t) 0 = 0 := rfl
        simp [h0]
      | succ jj =>
        simp only [List.getD_cons_succ]
        rw [ih (off + hd) lim jj (by simpa using hj), accTo_cons]
        omega

/-- Claim C4 counterexample: with item heights `[10, 10]`, scroll offset
0 and viewport height 10, `getRenderData` returns `tops = [0, 10]`: it
includes the top offset of item 1 even though item 1 (spanning
`[10, 20)`) has no intersection with the half-open window `[0, 10)` — the
walk admits the item that starts exactly at `top + height`, so the claim
as stated (exactly the items visible in `[top, top + h)`) fails. -/
theorem getRenderData_boundary_item :
    getRenderData [10, 10] 0 10 = (0, [0, 10]) ∧
    ¬ itemIntersectsWindow [10, 10] 1 0 10 := by
  constructor
  · decide
  · show ¬ (accTo [10, 10] 1 < 0 + 10 ∧ 0 < accTo [10, 10] (1 + 1))
    decide

/-- Claim C4 amended: for every scroll offset `top` and viewport height
`h`, `getRenderData` returns `startIndex` = the index of the item
containing offset `top` — clamped to the last item when `top` is at or
beyond the total content height, never failing — and `tops` contains the
absolute top offsets of exactly the items that are fully or partially
visible in the closed window `[top, top + h]`: precisely those `i` with
`itemTop(i) ≤ top + h` and `top < itemBottom(i)` (so an item starting
exactly at `top + h` is included, unlike the half-open reading). -/
theorem getRenderData_visible_window (hs : List Nat) (top viewH : Nat) (hne : hs ≠ []) :
    (top < hs.sum →
      accTo hs (getRenderData hs top viewH).1 ≤ top ∧
        top < accTo hs ((getRenderData hs top viewH).1 + 1)) ∧
    (hs.sum ≤ top → (getRenderData hs top viewH).1 = hs.length - 1) ∧
    (∀ j, j < (getRenderData hs top viewH).2.length →
      (getRenderData hs top viewH).2.getD j 0 =
        accTo hs ((getRenderData hs top viewH).1 + j)) ∧
    (top < hs.sum → ∀ i, i < hs.length →
      (((getRenderData hs top viewH).1 ≤ i ∧
          i - (getRenderData hs top viewH).1 < (getRenderData hs top viewH).2.length) ↔
        (accTo hs i ≤ top + viewH ∧ top < accTo hs (i + 1)))) := by
  have hrd1 : (getRenderData hs top viewH).1 = (getIndexOf hs top).1 := rfl
  have hrd2 : (getRenderData hs top viewH).2 =
      collectTops (hs.drop (getIndexOf hs top).1) (accTo hs (getIndexOf hs top).1)
        (top + viewH) := rfl
  have hslt : (getIndexOf hs top).1 < hs.length := getIndexOf_lt_length hs top hne
  refine ⟨?_, ?_, ?_, ?_⟩
  · intro hlt
    rw [hrd1]
    exact getIndexOf_spec hs top hne hlt
  · intro hge
    rw [hrd1]
    exact getIndexOf_clamp hs top hne hge
  · intro j hj
    rw [hrd2] at hj ⊢
    rw [hrd1, collectTops_getD _ _ _ _ hj]
    rw [accTo_split hs (getIndexOf hs top).1 ((getIndexOf hs top).1 + j) (by omega)]
    congr 1
    congr 1
    omega
  · intro hlt i hi
    obtain ⟨hspec1, hspec2⟩ := getIndexOf_spec hs top hne hlt
    rw [hrd1, hrd2]
    constructor
    · rintro ⟨hsi, hlen⟩
      rw [collectTops_length_iff] at hlen
      obtain ⟨-, hacc⟩ := hlen
      rw [← accTo_split hs _ i hsi] at hacc
      refine ⟨hacc, ?_⟩
      have : accTo hs ((getIndexOf hs top).1 + 1) ≤ accTo hs (i + 1) :=
        accTo_mono hs _ _ (by omega)
      omega
    · rintro ⟨hacc, htop⟩
      have hsi : (getIndexOf hs top).1 ≤ i := by
        by_contra hc
        have h1 : i + 1 ≤ (getIndexOf hs top).1 := by omega
        have h2 : accTo hs (i + 1) ≤ accTo hs (getIndexOf hs top).1 :=
          accTo_mono hs _ _ h1
        omega
      refine ⟨hsi, ?_⟩
      rw [collectTops_length_iff]
      refine ⟨?_, ?_⟩
      · rw [List.length_drop]
        omega
      · rw [← accTo_split hs _ i hsi]
        exact hacc

/-- Witness for the amended C4: heights `[20, 30, 25]`, scroll offset 30,
viewport 30; item 2 starts exactly at the closed window bottom 60 and is
represented in the returned window. -/
theorem getRenderData_visible_window_witness :
    (getRenderData [20, 30, 25] 30 30).1 ≤ 2 ∧
      2 - (getRenderData [20, 30, 25] 30 30).1 <
        (getRenderData [20, 30, 25] 30 30).2.length :=
  ((getRenderData_visible_window [20, 30, 25] 30 30 (by decide)).2.2.2
    (by decide) 2 (by decide)).mpr
    (by refine ⟨?_, ?_⟩ <;> decide)

/-! ## Claim C5: flush snapshots the listener set and dispatches in order -/

theorem runBefore_trace (hspec : HandlerSpec) :
    ∀ (snap : List Nat) (c : Ctx),
      (runBefore hspec snap c).2 = snap.map TraceEntry.beforeCall := by
  intro snap
  induction snap with
  | nil => intro c; rfl
  | cons l rest ih =>
    intro c
    simp only [runBefore, List.map_cons]
    rw [ih]

theorem runAfter_trace (hspec : HandlerSpec) :
    ∀ (snap : List Nat) (c : Ctx),
      (runAfter hspec snap c).2 = snap.map TraceEntry.afterCall := by
  intro snap
  induction snap with
  | nil => intro c; rfl
  | cons l rest ih =>
    intro c
    simp only [runAfter, List.map_cons]
    rw [ih]

theorem dispatchTo_trace (hspec : HandlerSpec) (e : CtxEvent) :
    ∀ (snap : List Nat) (c : Ctx),
      (dispatchTo hspec e snap c).2 = snap.map fun l => TraceEntry.dispatchCall l e := by
  intro snap
  induction snap with
  | nil => intro c; rfl
  | cons l rest ih =>
    intro c
    simp only [dispatchTo, List.map_cons]
    rw [ih]

/-- Context operations available to listeners can only append to the
pending event queue, never reorder or drop it. -/
theorem applyActs_events (acts : List CtxAct) :
    ∀ c : Ctx, ∃ extra, (applyActs c acts).events = c.events ++ extra := by
  induction acts with
  | nil => intro c; exact ⟨[], by simp [applyActs]⟩
  | cons a rest ih =>
    intro c
    obtain ⟨extra, hx⟩ := ih (applyAct c a)
    cases a with
    | addHandler l =>
      exact ⟨extra, by simpa [applyActs, applyAct] using hx⟩
    | removeHandler l =>
      exact ⟨extra, by simpa [applyActs, applyAct] using hx⟩
    | emitSoonAct e =>
      refine ⟨[e] ++ extra, ?_⟩
      simp only [applyActs, List.foldl_cons] at hx ⊢
      rw [hx]
      simp [applyAct]

theorem runBefore_events (hspec : HandlerSpec) :
    ∀ (snap : List Nat) (c : Ctx),
      ∃ extra, (runBefore hspec snap c).1.events = c.events ++ extra := by
  intro snap
  induction snap with
  | nil => intro c; exact ⟨[], by simp [runBefore]⟩
  | cons l rest ih =>
    intro c
    obtain ⟨e1, h1⟩ := applyActs_events (hspec.onBefore l c) c
    obtain ⟨e2, h2⟩ := ih (applyActs c (hspec.onBefore l c))
    refine ⟨e1 ++ e2, ?_⟩
    simp only [runBefore]
    rw [h2, h1, List.append_assoc]

theorem dispatchTo_events (hspec : HandlerSpec) (e : CtxEvent) :
    ∀ (snap : List Nat) (c : Ctx),
      ∃ extra, (dispatchTo hspec e snap c).1.events = c.events ++ extra := by
  intro snap
  induction snap with
  | nil => intro c; exact ⟨[], by simp [dispatchTo]⟩
  | cons l rest ih =>
    intro c
    obtain ⟨e1, h1⟩ := applyActs_events (hspec.onEvent l e c) c
    obtain ⟨e2, h2⟩ := ih (applyActs c (hspec.onEvent l e c))
    refine ⟨e1 ++ e2, ?_⟩
    simp only [dispatchTo]
    rw [h2, h1, List.append_assoc]

/-- Unfolding equation for the drain loop at fuel 0. -/
theorem drainEvents_zero (hspec : HandlerSpec) (snap : List Nat) (c : Ctx) :
    drainEvents hspec snap 0 c = if c.events = [] then some (c, [], []) else none := rfl

/-- Unfolding equation for the drain loop on an empty queue. -/
theorem drainEvents_succ_nil (hspec : HandlerSpec) (snap : List Nat) (fuel : Nat)
    (c : Ctx) (hEv : c.events = []) :
    drainEvents hspec snap (fuel + 1) c = some (c, [], []) := by
  obtain ⟨ls, evs⟩ := c
  simp only at hEv
  subst hEv
  rfl

/-- Unfolding equation for the drain loop on a non-empty queue: shift the
front event, dispatch it to the snapshot if it is a dispatched kind, and
continue. -/
theorem drainEvents_succ_cons (hspec : HandlerSpec) (snap : List Nat) (fuel : Nat)
    (c : Ctx) (e : CtxEvent) (rest : List CtxEvent) (hEv : c.events = e :: rest) :
    drainEvents hspec snap (fuel + 1) c =
      match drainEvents hspec snap fuel
          (if isDispatched e then dispatchTo hspec e snap { c with events := rest }
           else ({ c with events := rest }, [])).1 with
      | none => none
      | some (c2, es, tr) =>
        some (c2, e :: es,
          (if isDispatched e then dispatchTo hspec e snap { c with events := rest }
           else ({ c with events := rest }, [])).2 ++ tr) := by
  obtain ⟨ls, evs⟩ := c
  simp only at hEv
  subst hEv
  rfl

/-- The drain loop dispatches the initially queued events first, in
emission order, each to exactly the snapshotted listener list, with
events emitted during the drain following behind. -/
theorem drainEvents_spec (hspec : HandlerSpec) (snap : List Nat) :
    ∀ (fuel : Nat) (c c2 : Ctx) (es : List CtxEvent) (tr : List TraceEntry),
      drainEvents hspec snap fuel c = some (c2, es, tr) →
      tr = dispatchedTrace snap es ∧ ∃ rest, es = c.events ++ rest := by
  intro fuel
  induction fuel with
  | zero =>
    intro c c2 es tr h
    rw [drainEvents_zero] at h
    by_cases hc : c.events = []
    · rw [if_pos hc] at h
      simp only [Option.some.injEq, Prod.mk.injEq] at h
      obtain ⟨-, h2, h3⟩ := h
      subst h2
      subst h3
      exact ⟨rfl, [], by rw [hc]; rfl⟩
    · rw [if_neg hc] at h
      simp at h
  | succ fuel ih =>
    intro c c2 es tr h
    cases hEv : c.events with
    | nil =>
      rw [drainEvents_succ_nil hspec snap fuel c hEv] at h
      simp only [Option.some.injEq, Prod.mk.injEq] at h
      obtain ⟨-, h2, h3⟩ := h
      subst h2
      subst h3
      exact ⟨rfl, [], rfl⟩
    | cons e rest =>
      rw [drainEvents_succ_cons hspec snap fuel c e rest hEv] at h
      by_cases hd : isDispatched e
      · rw [if_pos hd] at h
        cases hdr : drainEvents hspec snap fuel
            (dispatchTo hspec e snap { c with events := rest }).1 with
        | none => rw [hdr] at h; simp at h
        | some val =>
          obtain ⟨c2', es', tr'⟩ := val
          rw [hdr] at h
          simp only [Option.some.injEq, Prod.mk.injEq] at h
          obtain ⟨-, h2, h3⟩ := h
          subst h2
          subst h3
          obtain ⟨htr', hes'⟩ := ih _ _ _ _ hdr
          obtain ⟨rest2, hrest2⟩ := hes'
          obtain ⟨extra, hextra⟩ :=
            dispatchTo_events hspec e snap { c with events := rest }
          constructor
          · rw [htr', dispatchedTrace, if_pos hd, dispatchTo_trace]
          · refine ⟨extra ++ rest2, ?_⟩
            rw [hrest2, hextra]
            simp
      · rw [if_neg hd] at h
        cases hdr : drainEvents hspec snap fuel
            ({ c with events := rest } : Ctx) with
        | none => rw [hdr] at h; simp at h
        | some val =>
          obtain ⟨c2', es', tr'⟩ := val
          rw [hdr] at h
          simp only [Option.some.injEq, Prod.mk.injEq] at h
          obtain ⟨-, h2, h3⟩ := h
          subst h2
          subst h3
          obtain ⟨htr', hes'⟩ := ih _ _ _ _ hdr
          obtain ⟨rest2, hrest2⟩ := hes'
          constructor
          · rw [htr', dispatchedTrace, if_neg hd]
          · refine ⟨rest2, ?_⟩
            rw [hrest2]
            simp

/-- Claim C5: for every `flush()` call that terminates, the listener set
is snapshotted once at the start; `onBeforeEventsDispatch` is invoked on
every snapshotted listener, then the queued events are dispatched
strictly in emission order — each dispatched event going to exactly the
snapshotted listener list (scroll events are intentionally delivered to
nobody) — and finally `onAfterEventsDispatch` is invoked on every
snapshotted listener.  Listeners registered or removed during the flush
(by way of the context operations available to them) do not change the
set used by that flush: the trace is fully determined by the listener
list at the start of the flush. -/
theorem flush_snapshot_order (hspec : HandlerSpec) (fuel : Nat) (c c' : Ctx)
    (es : List CtxEvent) (tr : List TraceEntry)
    (h : ListViewContext.flush hspec fuel c = some (c', es, tr)) :
    tr = c.listeners.map TraceEntry.beforeCall ++ dispatchedTrace c.listeners es ++
        c.listeners.map TraceEntry.afterCall ∧
    ∃ rest, es = c.events ++ rest := by
  simp only [ListViewContext.flush] at h
  cases hdr : drainEvents hspec c.listeners fuel (runBefore hspec c.listeners c).1 with
  | none => rw [hdr] at h; simp at h
  | some val =>
    obtain ⟨c2, es2, tr2⟩ := val
    rw [hdr] at h
    simp only [Option.some.injEq, Prod.mk.injEq] at h
    obtain ⟨-, h2, h3⟩ := h
    subst h2
    subst h3
    obtain ⟨htr2, rest2, hes2⟩ := drainEvents_spec hspec c.listeners fuel _ _ _ _ hdr
    obtain ⟨ex0, hex0⟩ := runBefore_events hspec c.listeners c
    constructor
    · rw [runBefore_trace, runAfter_trace, htr2]
    · exact ⟨ex0 ++ rest2, by rw [hes2, hex0, List.append_assoc]⟩

/-- Witness for C5: a concrete flush in which listener 1 registers a new
listener and listener 2 removes listener 1 mid-flush; the trace still
covers exactly the initial snapshot `[1, 2]`, in queue order. -/
theorem flush_snapshot_order_witness :
    ([TraceEntry.beforeCall 1, TraceEntry.beforeCall 2,
        TraceEntry.dispatchCall 1 (CtxEvent.dim 4 4),
        TraceEntry.dispatchCall 2 (CtxEvent.dim 4 4),
        TraceEntry.dispatchCall 1 (CtxEvent.itemsChanged 7),
        TraceEntry.dispatchCall 2 (CtxEvent.itemsChanged 7),
        TraceEntry.afterCall 1, TraceEntry.afterCall 2] : List TraceEntry) =
      demoCtx.listeners.map TraceEntry.beforeCall ++
        dispatchedTrace demoCtx.listeners
          [CtxEvent.dim 4 4, CtxEvent.scroll 3, CtxEvent.itemsChanged 7] ++
        demoCtx.listeners.map TraceEntry.afterCall ∧
    ∃ rest,
      ([CtxEvent.dim 4 4, CtxEvent.scroll 3, CtxEvent.itemsChanged 7] : List CtxEvent) =
        demoCtx.events ++ rest :=
  flush_snapshot_order demoHandlers 5 demoCtx ⟨[2, 9], []⟩
    [CtxEvent.dim 4 4, CtxEvent.scroll 3, CtxEvent.itemsChanged 7]
    [TraceEntry.beforeCall 1, TraceEntry.beforeCall 2,
      TraceEntry.dispatchCall 1 (CtxEvent.dim 4 4),
      TraceEntry.dispatchCall 2 (CtxEvent.dim 4 4),
      TraceEntry.dispatchCall 1 (CtxEvent.itemsChanged 7),
      TraceEntry.dispatchCall 2 (CtxEvent.itemsChanged 7),
      TraceEntry.afterCall 1, TraceEntry.afterCall 2]
    (by decide)

/-! ## Claim C6: at most one outstanding render callback -/

/-- While a render callback is pending, `emitSoon` only queues the event:
`_scheduleRender` is a no-op. -/
theorem emitSoonOp_pending (st : ListViewState) (e : CtxEvent) (t : Nat)
    (h : st.renderAnimationFrame = some t) :
    ListView.emitSoonOp st e = { st with events := st.events ++ [e] } := by
  obtain ⟨ev, raf, outs, req, sdn⟩ := st
  simp only at h
  subst h
  rfl

/-- Any number of `emitSoon` calls while a callback is pending leave the
pending callback, the scheduler ledger and the request counter
unchanged. -/
theorem emitMany_pending (es : List CtxEvent) : ∀ (st : ListViewState) (t : Nat),
    st.renderAnimationFrame = some t →
    (es.foldl ListView.emitSoonOp st).renderAnimationFrame = some t ∧
    (es.foldl ListView.emitSoonOp st).outstanding = st.outstanding ∧
    (es.foldl ListView.emitSoonOp st).requests = st.requests := by
  induction es with
  | nil =>
    intro st t h
    exact ⟨h, rfl, rfl⟩
  | cons e rest ih =>
    intro st t h
    rw [List.foldl_cons, emitSoonOp_pending st e t h]
    exact ih { st with events := st.events ++ [e] } t h

/-- The null-guard invariant: the scheduler ledger holds exactly the
callback recorded in `_renderAnimationFrame`. -/
theorem lvStep_inv (st : ListViewState) (h : st.outstanding = pendingOf st) (op : LVOp) :
    (lvStep st op).outstanding = pendingOf (lvStep st op) := by
  obtain ⟨ev, raf, outs, req, sdn⟩ := st
  cases op with
  | emit e =>
    cases raf with
    | none =>
      simp only [pendingOf] at h
      simp only [lvStep, ListView.emitSoonOp, ListView.scheduleRender, pendingOf, h,
        List.nil_append]
    | some t =>
      simp only [pendingOf] at h
      simp only [lvStep, ListView.emitSoonOp, ListView.scheduleRender, pendingOf, h]
  | fire =>
    cases raf with
    | none => exact h
    | some t =>
      simp only [pendingOf] at h
      simp only [lvStep, ListView.fireCallback, pendingOf, h, List.erase_cons_head]
  | disposeView =>
    cases raf with
    | none => exact h
    | some t =>
      simp only [pendingOf] at h
      simp only [lvStep, ListView.dispose, pendingOf, h, List.erase_cons_head]

theorem lvRun_inv (ops : List LVOp) :
    (lvRun ops).outstanding = pendingOf (lvRun ops) := by
  suffices hgen : ∀ (l : List LVOp) (st : ListViewState),
      st.outstanding = pendingOf st →
      (l.foldl lvStep st).outstanding = pendingOf (l.foldl lvStep st) by
    exact hgen ops lvInit rfl
  intro l
  induction l with
  | nil => intro st h; exact h
  | cons op rest ih =>
    intro st h
    rw [List.foldl_cons]
    exact ih _ (lvStep_inv st h op)

/-- While a callback is pending, no operation makes a new scheduling
request. -/
theorem lvStep_requests (st : ListViewState) (t : Nat)
    (h : st.renderAnimationFrame = some t) (op : LVOp) :
    (lvStep st op).requests = st.requests := by
  obtain ⟨ev, raf, outs, req, sdn⟩ := st
  simp only at h
  subst h
  cases op with
  | emit e => rfl
  | fire => rfl
  | disposeView => rfl

/-- Claim C6: in every reachable state there is at most one outstanding
scheduled rendering callback; any number of `emitSoon` calls occurring
while a callback is pending leave the pending callback unchanged
(scheduling is a no-op, the ledger and the request counter do not move),
and a new callback can be requested by an operation only when no
callback is pending. -/
theorem scheduleRender_coalesces (ops : List LVOp) :
    (lvRun ops).outstanding.length ≤ 1 ∧
    (∀ (es : List CtxEvent) (t : Nat), (lvRun ops).renderAnimationFrame = some t →
      (es.foldl ListView.emitSoonOp (lvRun ops)).renderAnimationFrame = some t ∧
      (es.foldl ListView.emitSoonOp (lvRun ops)).outstanding = (lvRun ops).outstanding ∧
      (es.foldl ListView.emitSoonOp (lvRun ops)).requests = (lvRun ops).requests) ∧
    (∀ op : LVOp, (lvStep (lvRun ops) op).requests ≠ (lvRun ops).requests →
      (lvRun ops).renderAnimationFrame = none) := by
  refine ⟨?_, ?_, ?_⟩
  · rw [lvRun_inv ops]
    cases hr : (lvRun ops).renderAnimationFrame <;> simp [pendingOf, hr]
  · intro es t h
    exact emitMany_pending es (lvRun ops) t h
  · intro op hne
    cases hr : (lvRun ops).renderAnimationFrame with
    | none => rfl
    | some t => exact absurd (lvStep_requests (lvRun ops) t hr op) hne

/-- Witness for C6: after one emit a callback is pending; two further
emits change nothing about the pending callback. -/
theorem scheduleRender_coalesces_witness :
    (lvRun [LVOp.emit (CtxEvent.dim 1 1)]).outstanding.length ≤ 1 ∧
    ([CtxEvent.scroll 0, CtxEvent.scroll 1].foldl ListView.emitSoonOp
        (lvRun [LVOp.emit (CtxEvent.dim 1 1)])).requests =
      (lvRun [LVOp.emit (CtxEvent.dim 1 1)]).requests :=
  ⟨(scheduleRender_coalesces [LVOp.emit (CtxEvent.dim 1 1)]).1,
    ((scheduleRender_coalesces [LVOp.emit (CtxEvent.dim 1 1)]).2.1
      [CtxEvent.scroll 0, CtxEvent.scroll 1] 0 (by decide)).2.2⟩

/-! ## Claim C9: teardown cancels the render callback but keeps the
retention slot -/

/-- Claim C9 counterexample: on a state with a retained scroll-grace node
(handle 5) and a pending render callback, `ListView.dispose` cancels the
callback but does NOT flush the one-slot retention cache — the retained
node survives teardown, contradicting the claim that it is released. -/
theorem dispose_keeps_retained_node :
    (ListView.dispose ⟨[], some 3, [3], 4, some 5⟩).scrollDomNode ≠ none ∧
    (ListView.dispose ⟨[], some 3, [3], 4, some 5⟩).scrollDomNode = some 5 ∧
    (ListView.dispose ⟨[], some 3, [3], 4, some 5⟩).renderAnimationFrame = none := by
  decide

/-- Claim C9 amended: on widget teardown a pending scheduled render
callback is cancelled with the scheduler (so it cannot run against
disposed state), but the one-slot retention cache is not flushed:
`dispose` leaves the retained scroll-grace node reference exactly as it
was; it is only discarded implicitly when the widget subtree is
removed. -/
theorem dispose_cancels_render (st : ListViewState)
    (h : st.outstanding = pendingOf st) :
    (ListView.dispose st).renderAnimationFrame = none ∧
    (ListView.dispose st).outstanding = [] ∧
    (ListView.dispose st).scrollDomNode = st.scrollDomNode := by
  obtain ⟨ev, raf, outs, req, sdn⟩ := st
  cases raf with
  | none =>
    simp only [pendingOf] at h
    simp [ListView.dispose, h]
  | some t =>
    simp only [pendingOf] at h
    simp [ListView.dispose, h, List.erase_cons_head]

/-- Witness for the amended C9 at a concrete state with a pending
callback and a retained node. -/
theorem dispose_cancels_render_witness :
    (ListView.dispose ⟨[], some 3, [3], 4, some 5⟩).renderAnimationFrame = none ∧
    (ListView.dispose ⟨[], some 3, [3], 4, some 5⟩).outstanding = [] ∧
    (ListView.dispose ⟨[], some 3, [3], 4, some 5⟩).scrollDomNode =
      (⟨[], some 3, [3], 4, some 5⟩ : ListViewState).scrollDomNode :=
  dispose_cancels_render ⟨[], some 3, [3], 4, some 5⟩ (by decide)

/-! ## Claim C8: clean reused nodes are never re-rendered -/

/-- Every content-generation call of `_finishRendering` targets a line at
or after the window start. -/
theorem renderTraceOf_mem (items : List ViewItem) : ∀ (n : Nat) (c : RenderCall),
    c ∈ renderTraceOf n items → ∃ m, c = RenderCall.renderItem m ∧ n ≤ m := by
  induction items with
  | nil =>
    intro n c hc
    simp [renderTraceOf] at hc
  | cons it rest ih =>
    intro n c hc
    simp only [renderTraceOf] at hc
    by_cases hd : it.isDirty
    · rw [if_pos hd] at hc
      rcases List.mem_cons.mp hc with hc1 | hc2
      · exact ⟨n, hc1, Nat.le_refl n⟩
      · obtain ⟨m, hm, hle⟩ := ih (n + 1) c hc2
        exact ⟨m, hm, by omega⟩
    · rw [if_neg hd] at hc
      obtain ⟨m, hm, hle⟩ := ih (n + 1) c hc
      exact ⟨m, hm, by omega⟩

/-- A non-dirty item never appears in the content-generation trace. -/
theorem renderTraceOf_clean (items : List ViewItem) : ∀ (n i : Nat),
    i < items.length → (items.getD i createViewItem).isDirty = false →
    RenderCall.renderItem (n + i) ∉ renderTraceOf n items := by
  induction items with
  | nil =>
    intro n i hi
    simp at hi
  | cons it rest ih =>
    intro n i hi hclean hmem
    simp only [renderTraceOf] at hmem
    cases i with
    | zero =>
      rw [List.getD_cons_zero] at hclean
      rw [if_neg (by rw [hclean]; exact Bool.false_ne_true)] at hmem
      obtain ⟨m, hm, hle⟩ := renderTraceOf_mem rest (n + 1) _ hmem
      have : n + 0 = m := by
        injection hm
      omega
    | succ j =>
      rw [List.getD_cons_succ] at hclean
      have harith : n + (j + 1) = (n + 1) + j := by omega
      by_cases hd : it.isDirty
      · rw [if_pos hd] at hmem
        rcases List.mem_cons.mp hmem with hc1 | hc2
        · have : n + (j + 1) = n := by injection hc1
          omega
        · rw [harith] at hc2
          exact ih (n + 1) j (by simpa using hi) hclean hc2
      · rw [if_neg hd] at hmem
        rw [harith] at hmem
        exact ih (n + 1) j (by simpa using hi) hclean hmem

/-- `_renderUntouchedLines` performs only repositioning calls. -/
theorem renderUntouchedLines_layout (st : RenderState) (a : Nat) (b : Int) :
    ∀ c ∈ renderUntouchedLines st a b, ∃ j, c = RenderCall.layout j := by
  intro c hc
  simp only [renderUntouchedLines] at hc
  by_cases hb : b < (a : Int)
  · rw [if_pos hb] at hc
    simp at hc
  · rw [if_neg hb] at hc
    rw [List.mem_filterMap] at hc
    obtain ⟨j, -, hj⟩ := hc
    cases hg : st.renderedItems[a + j]? with
    | none =>
      simp [List.get?_eq_getElem?, hg] at hj
    | some it =>
      cases hd : it.domNode with
      | none =>
        simp [List.get?_eq_getElem?, hg, hd] at hj
      | some x =>
        simp [List.get?_eq_getElem?, hg, hd] at hj
        exact ⟨_, hj.symm⟩

/-- Claim C8: in every render pass, a reused visual node that is not
dirty never has its content fragment regenerated — its line number never
appears as a content-generation call of `_finishRendering`, which
regenerates markup exactly for dirty items — and the reposition pass
`_renderUntouchedLines` only ever emits layout (top and height) calls,
never a content regeneration. -/
theorem clean_nodes_not_rerendered (domNodeIsEmpty : Bool) (st : RenderState)
    (i : Nat) (hi : i < st.renderedItems.length)
    (hclean : (st.renderedItems.getD i createViewItem).isDirty = false) :
    RenderCall.renderItem (st.renderedItemsStart + i) ∉
      (finishRendering domNodeIsEmpty st).2 ∧
    ∀ (a : Nat) (b : Int) (c : RenderCall),
      c ∈ renderUntouchedLines st a b → ∃ j, c = RenderCall.layout j := by
  constructor
  · have htr : (finishRendering domNodeIsEmpty st).2 =
        renderTraceOf st.renderedItemsStart st.renderedItems := rfl
    rw [htr]
    exact renderTraceOf_clean st.renderedItems st.renderedItemsStart i hi hclean
  · intro a b c hc
    exact renderUntouchedLines_layout st a b c hc

/-- Witness for C8: in the concrete two-item window only the dirty item
(line 3) is regenerated, the clean one (line 2) is not. -/
theorem clean_nodes_not_rerendered_witness :
    RenderCall.renderItem (demoFinishState.renderedItemsStart + 0) ∉
      (finishRendering false demoFinishState).2 ∧
    ∀ (a : Nat) (b : Int) (c : RenderCall),
      c ∈ renderUntouchedLines demoFinishState a b → ∃ j, c = RenderCall.layout j :=
  clean_nodes_not_rerendered false demoFinishState 0 (by decide) (by decide)

/-! ## Claim C7: the disjoint teardown path -/

/-- Walking a freshly allocated window in `_finishRendering`: every item
gets a fresh node handle at or above the handle supply, no replacements
occur, and the new-node handles are exactly as many as the items. -/
theorem finishItems_replicate (n : Nat) : ∀ nid : Nat,
    (finishItems (List.replicate n createViewItem) nid).replacements = [] ∧
    (finishItems (List.replicate n createViewItem) nid).items.length = n ∧
    (finishItems (List.replicate n createViewItem) nid).newIds.length = n ∧
    (∀ it ∈ (finishItems (List.replicate n createViewItem) nid).items,
      ∃ m, it.domNode = some m ∧ nid ≤ m ∧ it.isDirty = false) ∧
    (∀ x ∈ (finishItems (List.replicate n createViewItem) nid).newIds, nid ≤ x) := by
  induction n with
  | zero =>
    intro nid
    refine ⟨rfl, rfl, rfl, ?_, ?_⟩
    · intro it hit
      simp [finishItems, List.replicate] at hit
    · intro x hx
      simp [finishItems, List.replicate] at hx
  | succ k ih =>
    intro nid
    obtain ⟨ih1, ih2, ih3, ih4, ih5⟩ := ih (nid + 1)
    have hrw : finishItems (List.replicate (k + 1) createViewItem) nid =
        ⟨⟨false, some nid⟩ ::
            (finishItems (List.replicate k createViewItem) (nid + 1)).items,
          nid :: (finishItems (List.replicate k createViewItem) (nid + 1)).newIds,
          (finishItems (List.replicate k createViewItem) (nid + 1)).replacements,
          (finishItems (List.replicate k createViewItem) (nid + 1)).nextId⟩ := by
      rw [List.replicate_succ]
      rfl
    rw [hrw]
    refine ⟨ih1, ?_, ?_, ?_, ?_⟩
    · simp [ih2]
    · simp [ih3]
    · intro it hit
      rcases List.mem_cons.mp hit with h1 | h2
      · exact ⟨nid, by rw [h1], Nat.le_refl nid, by rw [h1]⟩
      · obtain ⟨m, hm1, hm2, hm3⟩ := ih4 it h2
        exact ⟨m, hm1, by omega, hm3⟩
    · intro x hx
      rcases List.mem_cons.mp hx with h1 | h2
      · omega
      · have := ih5 x h2
        omega

/-- The disjoint fast path produces a fresh contiguous window: the window
start becomes the desired start, the window holds exactly one clean item
with a fresh node handle per desired line, every previously attached node
handle is gone from the container, and the retention slot is cleared. -/
theorem renderDisjoint_fresh (startItem : Nat) (tops : List Nat) (st : RenderState)
    (hTops : tops ≠ [])
    (hIds : ∀ it ∈ st.renderedItems, ∀ n, it.domNode = some n → n < st.nextId) :
    (renderDisjoint startItem tops st).1.renderedItemsStart = startItem ∧
    (renderDisjoint startItem tops st).1.renderedItems.length = tops.length ∧
    (∀ it ∈ (renderDisjoint startItem tops st).1.renderedItems,
      ∃ m, it.domNode = some m ∧ st.nextId ≤ m ∧ it.isDirty = false) ∧
    (∀ it ∈ st.renderedItems, ∀ n, it.domNode = some n →
      n ∉ (renderDisjoint startItem tops st).1.children) ∧
    (renderDisjoint startItem tops st).1.scrollDomNode = none := by
  obtain ⟨f1, f2, f3, f4, f5⟩ := finishItems_replicate tops.length st.nextId
  have hne : (finishItems (List.replicate tops.length createViewItem) st.nextId).newIds ≠
      [] := by
    intro h0
    rw [h0] at f3
    exact hTops (List.length_eq_zero.mp f3.symm)
  have hrd : renderDisjoint startItem tops st =
      (⟨startItem,
          (finishItems (List.replicate tops.length createViewItem) st.nextId).items,
          none, st.scrollDomNodeIsAbove,
          (finishItems (List.replicate tops.length createViewItem) st.nextId).newIds,
          (finishItems (List.replicate tops.length createViewItem) st.nextId).nextId⟩,
        renderTraceOf startItem (List.replicate tops.length createViewItem)) := by
    simp only [renderDisjoint, finishRendering]
    rw [if_neg hne, if_pos (Or.inl trivial), f1]
    rfl
  rw [hrd]
  refine ⟨rfl, f2, f3 ▸ f4, ?_, rfl⟩
  intro it hit n hn hmem
  have h1 := hIds it hit n hn
  have h2 := f5 n hmem
  omega

/-- Claim C7 amended: for every render pass in which the desired range
`[startItem, endItem]` has no overlap with the current rendered range AND
no retained scroll-grace node younger than one second blocks removal
(`canRemoveScrollDomNode`), the reconciler takes the teardown path: it
allocates a fresh contiguous window covering exactly the desired range,
every node is newly allocated (its handle is fresh), all previously
attached node handles are removed from the container — zero nodes are
reused — and the retention slot is cleared.  When a young retained scroll
node exists, a disjoint jump instead goes through the incremental path,
which can leave an old node attached (see the counterexample). -/
theorem render_disjoint_teardown (nodeTime : Nat → Nat) (now startItem : Nat)
    (tops : List Nat) (st : RenderState)
    (hCan : canRemoveScrollDomNode nodeTime now st.scrollDomNode = true)
    (hDisj : (st.renderedItemsStart : Int) + st.renderedItems.length - 1 <
        (startItem : Int) ∨
      (startItem : Int) + tops.length - 1 < (st.renderedItemsStart : Int))
    (hTops : tops ≠ [])
    (hIds : ∀ it ∈ st.renderedItems, ∀ n, it.domNode = some n → n < st.nextId) :
    (ListView.render nodeTime now startItem tops st).1.renderedItemsStart = startItem ∧
    (ListView.render nodeTime now startItem tops st).1.renderedItems.length =
      tops.length ∧
    (∀ it ∈ (ListView.render nodeTime now startItem tops st).1.renderedItems,
      ∃ m, it.domNode = some m ∧ st.nextId ≤ m ∧ it.isDirty = false) ∧
    (∀ it ∈ st.renderedItems, ∀ n, it.domNode = some n →
      n ∉ (ListView.render nodeTime now startItem tops st).1.children) ∧
    (ListView.render nodeTime now startItem tops st).1.scrollDomNode = none := by
  have hrender : ListView.render nodeTime now startItem tops st =
      renderDisjoint startItem tops st := by
    unfold ListView.render
    rw [if_pos ⟨hCan, hDisj⟩]
  rw [hrender]
  exact renderDisjoint_fresh startItem tops st hTops hIds

/-- Claim C7 counterexample: the rendered range is `[0, 0]` and the
desired range `[5, 6]` — fully disjoint — but a retained scroll node
(handle 7, 500ms old at `now = 1000`) makes `canRemoveScrollDomNode`
false, so the pass takes the incremental path: the DOM node (handle 3) of
the one current visual item is NOT destroyed — it stays attached in the
container and becomes the new retained scroll node — contradicting the
claim that every disjoint pass destroys all current visual nodes. -/
theorem render_disjoint_blocked_by_scroll_node :
    ((demoYoungScrollState.renderedItemsStart : Int) +
        demoYoungScrollState.renderedItems.length - 1 < (5 : Int)) ∧
    demoYoungScrollState.renderedItems = [⟨false, some 3⟩] ∧
    3 ∈ (ListView.render demoNodeTime 1000 5 [100, 120]
        demoYoungScrollState).1.children ∧
    (ListView.render demoNodeTime 1000 5 [100, 120]
        demoYoungScrollState).1.scrollDomNode = some 3 := by
  refine ⟨by decide, rfl, by decide, by decide⟩

/-- Witness for the amended C7: the spec scenario, a jump from window
`[0, 20]` to `[500, 520]` with no retained scroll node. -/
theorem render_disjoint_teardown_witness :
    (ListView.render (fun _ => 0) 0 500 (List.replicate 21 0)
        demoOldWindow).1.renderedItemsStart = 500 ∧
    (ListView.render (fun _ => 0) 0 500 (List.replicate 21 0)
        demoOldWindow).1.renderedItems.length = (List.replicate 21 (0 : Nat)).length ∧
    (ListView.render (fun _ => 0) 0 500 (List.replicate 21 0)
        demoOldWindow).1.scrollDomNode = none :=
  ⟨(render_disjoint_teardown (fun _ => 0) 0 500 (List.replicate 21 0) demoOldWindow
      (by decide) (Or.inl (by decide)) (by decide) (by decide)).1,
    (render_disjoint_teardown (fun _ => 0) 0 500 (List.replicate 21 0) demoOldWindow
      (by decide) (Or.inl (by decide)) (by decide) (by decide)).2.1,
    (render_disjoint_teardown (fun _ => 0) 0 500 (List.replicate 21 0) demoOldWindow
      (by decide) (Or.inl (by decide)) (by decide) (by decide)).2.2.2.2⟩
